import Mathlib

/-
A shallow embedding of the template-inheritance engine of the extemplate
repository (package extemplate, auto-reload variant: `newTemplateFile`,
`parseTemplates`, `buildFileList`, `loadTemplateFiles`, `reloadTemplates`,
`ExecuteTemplate`).  Strings from the Go source are modelled as `List Char`
(Go strings are byte slices of runes; all characters relevant to the
directive grammar are ASCII, and byte lengths are tracked with
`Char.utf8Size` where the source measures bytes).  The external
`html/template` engine is an opaque collaborator and is modelled
abstractly, as documented at `TemplateEngine`.
-/

namespace ExtemplateModel

set_option autoImplicit false

universe u v

/-- First-defined-wins association-list lookup; the embedding of Go map
reads (`files[pname]`), with map updates modelled by `mapAssign` below. -/
def alookup {α : Type u} {β : Type v} [DecidableEq α] (key : α) : List (α × β) → Option β
  | [] => none
  | (k, v) :: rest => if k = key then some v else alookup key rest

/-- Go map assignment `m[k] = v`: replaces the binding in place, or appends. -/
def mapAssign {α : Type u} {β : Type v} [DecidableEq α] (m : List (α × β)) (k : α) (v : β) :
    List (α × β) :=
  match m with
  | [] => [(k, v)]
  | (k', v') :: rest => if k' = k then (k, v) :: rest else (k', v') :: mapAssign rest k v

/-- Left-biased choice on `Option`, used to state override ordering. -/
def optOr {α : Type u} : Option α → Option α → Option α
  | some x, _ => some x
  | none, b => b

/- ===== Directive parser (source: newTemplateFile and the extendsRegex
   compiled in init) ===== -/

/-- Byte length of a rune sequence, as Go's `len` on the underlying string. -/
def utf8Len (l : List Char) : Nat := l.foldl (fun n c => n + c.utf8Size) 0

/-- The first line of the contents, including its terminator when present:
the source reads runes until the first newline or EOF and keeps
`c[0:pos]`. -/
def firstLine : List Char → List Char
  | [] => []
  | c :: cs => if c = '\n' then [c] else c :: firstLine cs

/-- After a candidate closing quote, the regex tail consumes lazily
zero-or-more spaces followed by the two closing braces. -/
def closeOk (rest : List Char) : Bool :=
  match rest.dropWhile (fun c => c = ' ') with
  | '}' :: '}' :: _ => true
  | _ => false

/-- The lazy one-or-more-characters capture group of the extends regex: the
shortest nonempty newline-free capture whose closing quote is followed by
spaces and the closing braces. -/
def findCapture (acc : List Char) : List Char → Option (List Char)
  | [] => none
  | c :: rest =>
    if c = '\n' then none
    else if c = '"' then
      if !acc.isEmpty && closeOk rest then some acc.reverse
      else findCapture (c :: acc) rest
    else findCapture (c :: acc) rest

/-- Matching the extends regex at a fixed start position: two opening
braces, lazily zero-or-more spaces, the literal word, lazily one-or-more
spaces, a quote, the capture, and the regex tail handled by
`findCapture`. -/
def matchExtendsAt (cs : List Char) : Option (List Char) :=
  match cs with
  | '{' :: '{' :: r1 =>
    let r2 := r1.dropWhile (fun c => c = ' ')
    if ("extends".toList).isPrefixOf r2 then
      match r2.drop 7 with
      | ' ' :: _ =>
        match (r2.drop 7).dropWhile (fun c => c = ' ') with
        | '"' :: r5 => findCapture [] r5
        | _ => none
      | _ => none
    else none
  | _ => none

/-- Leftmost match of the extends regex, as Go's `FindSubmatch` (leftmost
start position wins). -/
def findExtends : List Char → Option (List Char)
  | [] => none
  | c :: cs =>
    match matchExtendsAt (c :: cs) with
    | some cap => some cap
    | none => findExtends cs

/-- A discovered template file: raw contents plus the layout (parent) name
captured from the extends directive, empty for root templates. -/
structure Templatefile where
  contents : List Char
  layout : List Char
deriving DecidableEq, Repr

/-- The auto-reload variant of newTemplateFile: inspect the first line only;
below ten bytes return the input unchanged; on a regex match the layout is
the capture (verbatim) and the first line is stripped from the contents. -/
def newTemplateFile (c : List Char) : Templatefile :=
  let line := firstLine c
  if utf8Len line < 10 then ⟨c, []⟩
  else
    match findExtends line with
    | some cap => ⟨c.drop line.length, cap⟩
    | none => ⟨c, []⟩

/-- The variant of newTemplateFile that always attempts the regex match,
with the minimum-length early return removed (the spec calls the cutoff a
pure optimization). -/
def newTemplateFileNoCutoff (c : List Char) : Templatefile :=
  let line := firstLine c
  match findExtends line with
  | some cap => ⟨c.drop line.length, cap⟩
  | none => ⟨c, []⟩

/-- Modelled from the spec: Go's `path/filepath.ToSlash`, which replaces the
host separator with a forward slash (the identity on hosts whose separator
already is the forward slash).  The host separator is passed explicitly. -/
def filepathToSlash (sep : Char) (s : List Char) : List Char :=
  if sep = '/' then s else s.map (fun c => if c = sep then '/' else c)

/-- The fs.FS variant of newTemplateFile, identical except that the captured
layout path is normalized to forward slashes. -/
def newTemplateFileFS (sep : Char) (c : List Char) : Templatefile :=
  let line := firstLine c
  if utf8Len line < 10 then ⟨c, []⟩
  else
    match findExtends line with
    | some cap => ⟨c.drop line.length, filepathToSlash sep cap⟩
    | none => ⟨c, []⟩

/- ===== The external templating primitive ===== -/

/-- A Go `interface\x7b\x7d` data value as passed to ExecuteTemplate:
a string, some other scalar, or a string-keyed map (the shape assembled
from variadic key/value pairs). -/
inductive GoVal : Type where
  | str (s : String)
  | int (n : Int)
  | vmap (m : List (String × GoVal))

/-- Modelled from the spec: the underlying text-substitution engine
(html/template) is an external collaborator, "treated as an opaque
templating primitive supporting named sub-templates [and] block-style
overridable fragments ... assumed correct and out of scope".  `parseBlocks`
returns the named sub-template definitions contributed by one body (in
definition order, `none` on a syntax error), and `exec` applies a compiled
namespace to an execution context.  Later parses into the same namespace
redefine identically-named blocks, which the model realizes by consing new
definitions in front of the namespace (`parseInto`). -/
structure TemplateEngine (D : Type) where
  parseBlocks : List Char → Option (List (String × D))
  exec : List (String × D) → Option GoVal → Except String String

/-- A namespace of named sub-template definitions; lookups take the most
recently parsed definition (front of the list). -/
abbrev NS (D : Type) := List (String × D)

/-- One `tmpl.Parse(contents)` call: the body's definitions redefine
identically-named blocks in the namespace. -/
def parseInto {D : Type} (ns : NS D) (defs : List (String × D)) : NS D :=
  defs.foldl (fun n kv => kv :: n) ns

/- ===== Inheritance resolver (source: parseTemplates) ===== -/

/-- The in-memory file set, keyed by logical name. -/
abbrev Files := List (List Char × Templatefile)

/-- The ancestor-chain walk of parseTemplates, starting at a layout name:
while the looked-up parent exists, record its name and continue at that
parent's own layout.  The Go loop has no termination guard, so the model
takes a fuel bound; `none` means no amount of fuel ends the loop from this
state within the bound. -/
def chainWalk (files : Files) : Nat → List Char → Option (List (List Char))
  | 0, pname =>
    match alookup pname files with
    | none => some []
    | some _ => none
  | fuel + 1, pname =>
    match alookup pname files with
    | none => some []
    | some parent => (chainWalk files fuel parent.layout).map (fun rest => pname :: rest)

/-- The parse loop over an ordered list of template names: look each file up
and parse its contents into the working namespace; the first error stops
the loop, returning the partially-built namespace together with the
error. -/
def parseSeq {D : Type} (E : TemplateEngine D) (files : Files) :
    NS D → List (List Char) → NS D × Option String
  | ns, [] => (ns, none)
  | ns, n :: rest =>
    match alookup n files with
    | none => (ns, some "invalid memory address or nil pointer dereference")
    | some tf =>
      match E.parseBlocks tf.contents with
      | none => (ns, some "template: parse error")
      | some defs => parseSeq E files (parseInto ns defs) rest

/-- Compiling one extending template: clone the shared namespace, walk the
ancestor chain from the template's layout, and parse the chain files in
reverse order (outermost ancestor first, the child's own body last).
`none` means the chain walk never terminates within the fuel bound. -/
def compileOne {D : Type} (E : TemplateEngine D) (files : Files) (fuel : Nat) (shared : NS D)
    (name : List Char) (tf : Templatefile) : Option (NS D × Option String) :=
  (chainWalk files fuel tf.layout).map (fun anc => parseSeq E files shared ((name :: anc).reverse))

/-- The result of running a Go method that mutates the engine: a normal
return (`ok`), an error return with the receiver as mutated so far
(`fail`), an infinite loop (`hang`, the fuel-bounded model of the
unguarded chain walk), or a runtime panic. -/
inductive Outcome (α : Type) : Type where
  | ok (a : α)
  | fail (a : α) (e : String)
  | hang
  | panicked
deriving DecidableEq, Repr

/-- First pass of parseTemplates: parse every root (non-extending) file
into the shared namespace; a parse error stops the pass, keeping the
definitions parsed so far (the namespace is mutated in place). -/
def parseRootsGo {D : Type} (E : TemplateEngine D) :
    NS D → List (List Char × Templatefile) → NS D × Option String
  | ns, [] => (ns, none)
  | ns, (_, tf) :: rest =>
    if tf.layout = [] then
      match E.parseBlocks tf.contents with
      | none => (ns, some "template: parse error")
      | some defs => parseRootsGo E (parseInto ns defs) rest
    else parseRootsGo E ns rest

/-- Second pass of parseTemplates: root templates are re-used from the
shared namespace; extending templates are compiled with `compileOne`, and
each is registered in the compiled map (the source registers the working
copy before parsing into it, so a failing template is registered in its
partially-parsed state when the error is returned). -/
def parseChildrenGo {D : Type} (E : TemplateEngine D) (files : Files) (fuel : Nat)
    (shared : NS D) :
    List (List Char × NS D) → List (List Char × Templatefile) →
    Outcome (List (List Char × NS D))
  | tmpls, [] => .ok tmpls
  | tmpls, (name, tf) :: rest =>
    if tf.layout = [] then
      parseChildrenGo E files fuel shared (mapAssign tmpls name shared) rest
    else
      match compileOne E files fuel shared name tf with
      | none => .hang
      | some (ns, some e) => .fail (mapAssign tmpls name ns) e
      | some (ns, none) => parseChildrenGo E files fuel shared (mapAssign tmpls name ns) rest

/- ===== Engine state and file-set scanning ===== -/

/-- The Extemplate engine state (the fields driving the embedded logic;
Delims and FuncMap live inside the opaque namespace configuration). -/
structure Engine (D : Type) where
  shared : NS D
  sharedBackup : Option (NS D)
  templates : List (List Char × NS D)
  autoReload : Bool
  root : List Char
  extensions : List (List Char)
  fileTreeHash : List (List Char)
deriving DecidableEq, Repr

/-- The backup-capture prologue of parseTemplates: clone the shared
namespace into the pristine backup the first time through. -/
def withBackup {D : Type} (st : Engine D) : Engine D :=
  match st.sharedBackup with
  | none => { st with sharedBackup := some st.shared }
  | some _ => st

/-- parseTemplates: capture the pristine backup of the shared namespace
once, parse all roots into the shared namespace, then compile every
template (roots by reference, children via the chain walk). -/
def parseTemplates {D : Type} (E : TemplateEngine D) (fuel : Nat) (st : Engine D)
    (files : Files) : Outcome (Engine D) :=
  let st1 := withBackup st
  match parseRootsGo E st1.shared files with
  | (ns, some e) => .fail { st1 with shared := ns } e
  | (ns, none) =>
    match parseChildrenGo E files fuel ns st1.templates files with
    | .ok tm => .ok { st1 with shared := ns, templates := tm }
    | .fail tm e => .fail { st1 with shared := ns, templates := tm } e
    | .hang => .hang
    | .panicked => .panicked

/-- One entry of the backing file set, as observed by a directory walk:
the slash-joined relative component path of the entry below the walk root
(each component a plain directory-entry name, so never empty and never
containing a separator or equal to a dot path), a directory flag, the
modification-time string, and the contents (`none` models an unreadable
file).  The whole file-set model fixes the host path separator to the
forward slash (a Unix host); backslash-separator hosts are outside the
embedding. -/
structure FileInfo where
  rel : List Char
  isDir : Bool
  modTime : List Char
  contents : Option (List Char)
deriving DecidableEq, Repr

/-- The backing file set in walk order. -/
abbrev FS := List FileInfo

/-- Go's `strings.TrimSuffix`. -/
def goTrimSuffix (s suf : List Char) : List Char :=
  if suf.isSuffixOf s then s.take (s.length - suf.length) else s

/-- Go's `strings.TrimPrefix` of `p` from `s`. -/
def goTrimPre (s p : List Char) : List Char :=
  if p.isPrefixOf s then s.drop p.length else s

/-- buildFileList's root normalization: ensure one trailing slash. -/
def normRoot (root : List Char) : List Char := goTrimSuffix root ['/'] ++ ['/']

/-- The backtracking step of Go's `path.Clean` for a `..` element: starting
from the final write index, walk left past the last path element until the
separator guarding it (or the dotdot barrier); the returned index is the
new output length. -/
def popLoop (out : List Char) (dotdot : Nat) : Nat → Nat
  | 0 => 0
  | w + 1 =>
    if dotdot < w + 1 ∧ ¬(out.getD (w + 1) ' ' = '/') then popLoop out dotdot w
    else w + 1

/-- Dropping the last path element of the output buffer, as Go's
`path.Clean` does on `..` when backtracking is possible. -/
def popElement (out : List Char) (dotdot : Nat) : List Char :=
  out.take (popLoop out dotdot (out.length - 1))

/-- Appending the element separator at the start of a new output element:
a slash unless the buffer holds only the rooted slash (or nothing). -/
def elemStart (rooted : Bool) (out : List Char) : List Char :=
  if (rooted ∧ out.length ≠ 1) ∨ (rooted = false ∧ out.length ≠ 0) then out ++ ['/']
  else out

/-- The main loop of Go's `path.Clean`, one rune at a time; the Bool flag
is true while the characters of a path element are being copied to the
output (Go's inner copy loop). -/
def cleanLoop (rooted : Bool) : Nat → Bool → List Char → List Char → List Char
  | _, _, out, [] => out
  | dotdot, true, out, c :: rest =>
    if c = '/' then cleanLoop rooted dotdot false out rest
    else cleanLoop rooted dotdot true (out ++ [c]) rest
  | dotdot, false, out, '/' :: rest => cleanLoop rooted dotdot false out rest
  | _, false, out, ['.'] => out
  | dotdot, false, out, '.' :: '/' :: rest => cleanLoop rooted dotdot false out rest
  | dotdot, false, out, '.' :: '.' :: rest =>
    if rest = [] ∨ rest.headD ' ' = '/' then
      if dotdot < out.length then
        cleanLoop rooted dotdot false (popElement out dotdot) rest
      else if rooted then
        cleanLoop rooted dotdot false out rest
      else
        cleanLoop rooted (((if out.isEmpty then out else out ++ ['/']) ++ ['.', '.']).length)
          false ((if out.isEmpty then out else out ++ ['/']) ++ ['.', '.']) rest
    else
      cleanLoop rooted dotdot true (elemStart rooted out ++ ['.', '.']) rest
  | dotdot, false, out, '.' :: c :: rest =>
    cleanLoop rooted dotdot true (elemStart rooted out ++ ['.']) (c :: rest)
  | dotdot, false, out, c :: rest =>
    cleanLoop rooted dotdot true (elemStart rooted out ++ [c]) rest

/-- Go's `path.Clean` (equally `filepath.Clean` on a forward-slash host):
collapse repeated separators, eliminate dot elements, backtrack dot-dot
elements, drop trailing separators, with the empty result becoming the
single dot. -/
def filepathClean (path : List Char) : List Char :=
  match path with
  | [] => ['.']
  | c :: rest =>
    let res :=
      if c = '/' then cleanLoop true 1 false ['/'] rest
      else cleanLoop false 0 false [] (c :: rest)
    if res = [] then ['.'] else res

/-- The path filepath.Walk reports for a kept entry: the walk joins the
slash-normalized root with the entry's relative components through
`filepath.Join`, which cleans the joined path; for component paths made of
plain directory-entry names this equals one clean of the full
concatenation. -/
def walkPath (root rel : List Char) : List Char := filepathClean (normRoot root ++ rel)

/-- Reversed-scan kernel of Go's `filepath.Ext`: scan backwards until a
separator, returning the suffix from the final dot. -/
def goExtRev (acc : List Char) : List Char → Option (List Char)
  | [] => none
  | c :: rest =>
    if c = '/' then none
    else if c = '.' then some ('.' :: acc)
    else goExtRev (c :: acc) rest

/-- Go's `filepath.Ext`: the suffix beginning at the final dot in the final
path element, empty when there is none. -/
def goExt (p : List Char) : List Char := (goExtRev [] p.reverse).getD []

/-- The walk of buildFileList restricted to the entries it keeps: files
(not directories) whose walk-path extension is in the allowed set. -/
def scanEntries (fs : FS) (root : List Char) (exts : List (List Char)) : FS :=
  fs.filter (fun e => !e.isDir && exts.contains (goExt (walkPath root e.rel)))

/-- The ordered (path, modification time) pairs a scan feeds to the hash. -/
def scanPairs (fs : FS) (root : List Char) (exts : List (List Char)) :
    List (List Char × List Char) :=
  (scanEntries fs root exts).map (fun e => (walkPath root e.rel, e.modTime))

/-- buildFileList: the kept walk paths, plus the file-tree fingerprint.
The sha256 digest is modelled by the exact byte stream written to it (path
then modification time per kept file), which preserves the invariant the
spec states: the fingerprint is a deterministic function of the observed
(path, mtime) sequence. -/
def buildFileList (fs : FS) (root : List Char) (exts : List (List Char)) :
    List (List Char) × List (List Char) :=
  ((scanEntries fs root exts).map (fun e => walkPath root e.rel),
   (scanPairs fs root exts).foldl (fun h p => h ++ [p.1, p.2]) [])

/-- `ioutil.ReadFile` against the modelled file set: find the entry whose
walk path matches and return its contents, failing when it is missing or
unreadable. -/
def goReadFile (fs : FS) (root : List Char) (path : List Char) : Except String (List Char) :=
  match fs.find? (fun e => !e.isDir && walkPath root e.rel = path) with
  | none => .error "open: no such file or directory"
  | some e =>
    match e.contents with
    | none => .error "read: permission denied"
    | some c => .ok c

/-- loadTemplateFiles: read every listed path, strip the raw (as-given)
root from it to obtain the logical name, and run the directive parser on
the contents; the first read error aborts. -/
def loadTemplateFiles (fs : FS) (root : List Char) :
    List (List Char) → Except String (List (List Char × Templatefile))
  | [] => .ok []
  | path :: rest =>
    match goReadFile fs root path with
    | .error e => .error e
    | .ok contents =>
      match loadTemplateFiles fs root rest with
      | .error e => .error e
      | .ok files => .ok ((goTrimPre path root, newTemplateFile contents) :: files)

/-- reloadTemplates: rescan; if the fingerprint is unchanged do nothing;
otherwise reload the file contents, store the new fingerprint, reset the
shared namespace from the pristine backup, empty the compiled map, and
rebuild via parseTemplates. -/
def reloadTemplates {D : Type} (E : TemplateEngine D) (fuel : Nat) (fs : FS)
    (st : Engine D) : Outcome (Engine D) :=
  let bl := buildFileList fs st.root st.extensions
  if bl.2 = st.fileTreeHash then .ok st
  else
    match loadTemplateFiles fs st.root bl.1 with
    | .error e => .fail st e
    | .ok files =>
      match st.sharedBackup with
      | none => .panicked
      | some bk =>
        parseTemplates E fuel
          { st with fileTreeHash := bl.2, shared := bk, templates := [] } files

/- ===== Execution facade (source: ExecuteTemplate) ===== -/

/-- The key/value assembly loop of ExecuteTemplate, two arguments at a
time: every key must be a string; values land in a string-keyed map. -/
def buildMap (acc : List (String × GoVal)) : List GoVal → Except String (Option GoVal)
  | [] => .ok (some (GoVal.vmap acc))
  | GoVal.str k :: v :: rest => buildMap (mapAssign acc k v) rest
  | _ :: _ :: _ => .error "template data key must be a string"
  | [_] => .error "template data key must be a string"

/-- ExecuteTemplate's variadic data binding: zero arguments bind a nil
context, one argument binds that value, an odd longer list is rejected,
and an even longer list is assembled into a string-keyed map. -/
def bindData (data : List GoVal) : Except String (Option GoVal) :=
  match data with
  | [] => .ok none
  | [d] => .ok (some d)
  | _ =>
    if data.length % 2 ≠ 0 then .error "odd number of key/value pairs as template data"
    else buildMap [] data

/-- The lookup-and-execute tail of ExecuteTemplate, after any reload. -/
def lookupAndRun {D : Type} (E : TemplateEngine D) (st : Engine D) (name : List Char)
    (data : List GoVal) : Except String String :=
  match alookup name st.templates with
  | none => .error ("extemplate: no template \"" ++ String.mk name ++ "\"")
  | some tns =>
    match bindData data with
    | .error e => .error e
    | .ok ctx => E.exec tns ctx

/-- ExecuteTemplate: when no static bundle is compiled in and auto-reload
is on, run the reload check first (returning its error, with the engine as
it mutated it); then resolve the name and execute with the bound data. -/
def ExecuteTemplate {D : Type} (E : TemplateEngine D) (fuel : Nat) (staticEmpty : Bool)
    (fs : FS) (st : Engine D) (name : List Char) (data : List GoVal) :
    Outcome (Engine D × Except String String) :=
  match (if staticEmpty && st.autoReload then reloadTemplates E fuel fs st else .ok st) with
  | .hang => .hang
  | .panicked => .panicked
  | .fail st' e => .ok (st', .error e)
  | .ok st' => .ok (st', lookupAndRun E st' name data)

/-- ParseDir (the non-bundled branch): record root and extensions
(defaulting the latter), scan, load, store the fingerprint, and build. -/
def ParseDir {D : Type} (E : TemplateEngine D) (fuel : Nat) (fs : FS) (st : Engine D)
    (root : List Char) (extensions : List (List Char)) : Outcome (Engine D) :=
  let exts := if extensions = [] then [".html".toList, ".tmpl".toList] else extensions
  let st1 := { st with root := root, extensions := exts }
  let bl := buildFileList fs root exts
  match loadTemplateFiles fs root bl.1 with
  | .error e => .fail st1 e
  | .ok files => parseTemplates E fuel { st1 with fileTreeHash := bl.2 } files

/- ===== Derived notions used to state the claims ===== -/

/-- The block definition a single chain member contributes for block `b`:
its body's definitions with later duplicates winning (`parseInto` into an
empty namespace). -/
def bodyDefOf {D : Type} (E : TemplateEngine D) (files : Files) (n : List Char) (b : String) :
    Option D :=
  match alookup n files with
  | none => none
  | some tf =>
    match E.parseBlocks tf.contents with
    | none => none
    | some defs => alookup b (parseInto [] defs)

/-- The definition of block `b` contributed by the nearest descendant in a
child-first chain. -/
def nearestDef {D : Type} (E : TemplateEngine D) (files : Files) (b : String) :
    List (List Char) → Option D
  | [] => none
  | n :: rest => optOr (bodyDefOf E files n b) (nearestDef E files b rest)

/-- Whether a data value is a Go string (usable as a map key). -/
def GoVal.isStr : GoVal → Bool
  | .str _ => true
  | _ => false

/-- Whether every key position (even index) of a variadic data list holds a
string. -/
def allStringKeys : List GoVal → Bool
  | [] => true
  | [_] => true
  | k :: _ :: rest => k.isStr && allStringKeys rest

/-- Key/value pairs laid out as a flat variadic argument list. -/
def flattenPairs (kvs : List (String × GoVal)) : List GoVal :=
  kvs.foldr (fun kv acc => GoVal.str kv.1 :: kv.2 :: acc) []

/-- The string-keyed map corresponding to a list of key/value pairs, built
with Go map assignment in order. -/
def assembleMap (kvs : List (String × GoVal)) : List (String × GoVal) :=
  kvs.foldl (fun m kv => mapAssign m kv.1 kv.2) []

/- ===== Concrete instances used by counterexamples and witnesses ===== -/

/-- A concrete instantiation of the opaque templating primitive for
evaluating the model: every body defines the single block "X" as its own
text, the one-byte body "!" is malformed, and execution renders a fixed
string. -/
def toyEngine : TemplateEngine String where
  parseBlocks := fun src => if src = "!".toList then none else some [("X", src.asString)]
  exec := fun _ _ => Except.ok "rendered"

/-- A one-file backing file set in its initial, well-formed state. -/
def fsOld : FS := [⟨"base.tmpl".toList, false, "t1".toList, some "OLD".toList⟩]

/-- The same file set after base.tmpl was rewritten (new modification time)
with contents the toy engine rejects as a parse error. -/
def fsNew : FS := [⟨"base.tmpl".toList, false, "t2".toList, some "!".toList⟩]

/-- An engine state serving a previously built compiled set for fsOld, with
auto-reload enabled. -/
def stServing : Engine String where
  shared := [("X", "OLD")]
  sharedBackup := some []
  templates := [("base.tmpl".toList, [("X", "OLD")])]
  autoReload := true
  root := "d/".toList
  extensions := [".tmpl".toList]
  fileTreeHash := ["d/base.tmpl".toList, "t1".toList]

/-- The engine state reloadTemplates leaves behind when the rebuild against
fsNew fails: new fingerprint stored, shared namespace reset to the pristine
backup, compiled map freshly emptied. -/
def stFailed : Engine String where
  shared := []
  sharedBackup := some []
  templates := []
  autoReload := true
  root := "d/".toList
  extensions := [".tmpl".toList]
  fileTreeHash := ["d/base.tmpl".toList, "t2".toList]

/-- A two-file set whose extends references form a cycle. -/
def cycFiles : Files :=
  [("a.tmpl".toList, ⟨"A".toList, "b.tmpl".toList⟩),
   ("b.tmpl".toList, ⟨"B".toList, "a.tmpl".toList⟩)]

/-- A three-level grandparent/parent/child chain, each body defining the
block "X" (as its own text under the toy engine). -/
def files3 : Files :=
  [("child.tmpl".toList, ⟨"C".toList, "parent.tmpl".toList⟩),
   ("parent.tmpl".toList, ⟨"P".toList, "grand.tmpl".toList⟩),
   ("grand.tmpl".toList, ⟨"G".toList, []⟩)]

/-- The namespace compiled for the child of `files3` from an empty shared
namespace. -/
def ns3c : NS String := [("X", "C"), ("X", "P"), ("X", "G")]

/-- A one-file set whose only template extends a parent missing from the
set. -/
def files5 : Files := [("c.tmpl".toList, ⟨"C".toList, "ghost.tmpl".toList⟩)]

/-- A file set rooted at a directory spelled without a trailing slash. -/
def fs8 : FS := [⟨"admin/index.tmpl".toList, false, "t1".toList, some "hi".toList⟩]

/-- An engine state with one known template and auto-reload off, for
exercising the execution facade. -/
def stExec : Engine String where
  shared := []
  sharedBackup := none
  templates := [("values.tmpl".toList, [("X", "V")])]
  autoReload := false
  root := []
  extensions := []
  fileTreeHash := []

/- ===== Helper lemmas about namespaces and the chain walk ===== -/

theorem optOr_assoc {α : Type u} (a b c : Option α) :
    optOr (optOr a b) c = optOr a (optOr b c) := by
  cases a <;> rfl

theorem optOr_none_right {α : Type u} (a : Option α) : optOr a none = a := by
  cases a <;> rfl

theorem parseInto_eq_append {D : Type} (defs : List (String × D)) : ∀ ns : NS D,
    parseInto ns defs = parseInto [] defs ++ ns := by
  induction defs with
  | nil => intro ns; rfl
  | cons d rest ih =>
    intro ns
    show parseInto (d :: ns) rest = parseInto [d] rest ++ ns
    rw [ih (d :: ns), ih [d]]
    simp

theorem alookup_append {α : Type u} {β : Type v} [DecidableEq α] (key : α)
    (l₁ l₂ : List (α × β)) :
    alookup key (l₁ ++ l₂) = optOr (alookup key l₁) (alookup key l₂) := by
  induction l₁ with
  | nil => rfl
  | cons kv rest ih =>
    obtain ⟨k, v⟩ := kv
    simp only [List.cons_append, alookup]
    split
    · rfl
    · exact ih

theorem alookup_parseInto {D : Type} (b : String) (ns : NS D) (defs : List (String × D)) :
    alookup b (parseInto ns defs) =
      optOr (alookup b (parseInto [] defs)) (alookup b ns) := by
  rw [parseInto_eq_append, alookup_append]

theorem nearestDef_append {D : Type} (E : TemplateEngine D) (files : Files) (b : String)
    (l₁ l₂ : List (List Char)) :
    nearestDef E files b (l₁ ++ l₂) =
      optOr (nearestDef E files b l₁) (nearestDef E files b l₂) := by
  induction l₁ with
  | nil => rfl
  | cons n rest ih =>
    show optOr (bodyDefOf E files n b) (nearestDef E files b (rest ++ l₂)) = _
    rw [ih, ← optOr_assoc]
    rfl

theorem parseSeq_alookup {D : Type} (E : TemplateEngine D) (files : Files) :
    ∀ (l : List (List Char)) (ns ns' : NS D), parseSeq E files ns l = (ns', none) →
    ∀ b, alookup b ns' = optOr (nearestDef E files b l.reverse) (alookup b ns) := by
  intro l
  induction l with
  | nil =>
    intro ns ns' h b
    injection h with h1 _
    subst h1
    rfl
  | cons n rest ih =>
    intro ns ns' h b
    simp only [parseSeq] at h
    split at h
    next hn => injection h with _ h2; cases h2
    next tf hn =>
      split at h
      next hp => injection h with _ h2; cases h2
      next defs hp =>
        have hrec := ih (parseInto ns defs) ns' h b
        have hbody : bodyDefOf E files n b = alookup b (parseInto [] defs) := by
          simp [bodyDefOf, hn, hp]
        rw [hrec, alookup_parseInto, List.reverse_cons, nearestDef_append, ← hbody]
        simp only [nearestDef, optOr_none_right, optOr_assoc]

theorem parseSeq_ok_of_parses {D : Type} (E : TemplateEngine D) (files : Files) :
    ∀ (l : List (List Char)) (ns : NS D),
    (∀ n ∈ l, ∃ tf, alookup n files = some tf ∧ (E.parseBlocks tf.contents).isSome = true) →
    (parseSeq E files ns l).2 = none := by
  intro l
  induction l with
  | nil => intro ns _; rfl
  | cons n rest ih =>
    intro ns h
    obtain ⟨tf, htf, hpb⟩ := h n (List.mem_cons_self n rest)
    obtain ⟨defs, hdefs⟩ := Option.isSome_iff_exists.mp hpb
    simp only [parseSeq, htf, hdefs]
    exact ih (parseInto ns defs) (fun m hm => h m (List.mem_cons_of_mem _ hm))

theorem chainWalk_succ (files : Files) (fuel : Nat) (pname : List Char) :
    chainWalk files (fuel + 1) pname =
      match alookup pname files with
      | none => some []
      | some parent => (chainWalk files fuel parent.layout).map (fun rest => pname :: rest) :=
  rfl

theorem chainWalk_of_missing {files : Files} {m : List Char} (fuel : Nat)
    (hm : alookup m files = none) : chainWalk files fuel m = some [] := by
  cases fuel <;> simp [chainWalk, hm]

theorem cyc_chainWalk_none : ∀ fuel : Nat,
    chainWalk cycFiles fuel ("a.tmpl".toList) = none ∧
    chainWalk cycFiles fuel ("b.tmpl".toList) = none := by
  intro fuel
  induction fuel with
  | zero => exact ⟨rfl, rfl⟩
  | succ n ih =>
    constructor
    · rw [chainWalk_succ,
        show alookup ("a.tmpl".toList) cycFiles =
          some ⟨"A".toList, "b.tmpl".toList⟩ from rfl]
      show (chainWalk cycFiles n ("b.tmpl".toList)).map _ = none
      rw [ih.2]
      rfl
    · rw [chainWalk_succ,
        show alookup ("b.tmpl".toList) cycFiles =
          some ⟨"B".toList, "a.tmpl".toList⟩ from rfl]
      show (chainWalk cycFiles n ("a.tmpl".toList)).map _ = none
      rw [ih.1]
      rfl

/- ===== Helper lemmas about the directive parser ===== -/

theorem closeOk_length {r : List Char} (h : closeOk r = true) : 2 ≤ r.length := by
  unfold closeOk at h
  split at h
  case _ t heq =>
    have hle := (List.dropWhile_sublist (l := r) (fun c => c = ' ')).length_le
    rw [heq] at hle
    simp only [List.length_cons] at hle
    omega
  case _ => exact absurd h (by simp)

theorem findCapture_length (r : List Char) :
    ∀ acc cap : List Char, findCapture acc r = some cap → 3 ≤ r.length := by
  induction r with
  | nil => intro acc cap h; exact absurd h (by simp [findCapture])
  | cons c rest ih =>
    intro acc cap h
    simp only [findCapture] at h
    split at h
    · exact absurd h (by simp)
    · split at h
      · split at h
        case _ hcond =>
          have h2 : closeOk rest = true := (Bool.and_eq_true_iff.mp hcond).2
          have := closeOk_length h2
          simp only [List.length_cons]
          omega
        case _ =>
          have := ih (c :: acc) cap h
          simp only [List.length_cons]
          omega
      · have := ih (c :: acc) cap h
        simp only [List.length_cons]
        omega

theorem findCapture_nil_length {r cap : List Char} (h : findCapture [] r = some cap) :
    4 ≤ r.length := by
  cases r with
  | nil => exact absurd h (by simp [findCapture])
  | cons c rest =>
    simp only [findCapture] at h
    split at h
    · exact absurd h (by simp)
    · split at h
      · split at h
        case _ hcond => exact absurd hcond (by simp)
        case _ =>
          have := findCapture_length rest _ _ h
          simp only [List.length_cons]
          omega
      · have := findCapture_length rest _ _ h
        simp only [List.length_cons]
        omega

theorem matchExtendsAt_length {cs cap : List Char} (h : matchExtendsAt cs = some cap) :
    15 ≤ cs.length := by
  unfold matchExtendsAt at h
  split at h
  case _ r1 =>
    simp only at h
    split at h
    case _ hpre =>
      split at h
      case _ t heq2 =>
        split at h
        case _ r5 heq3 =>
          have h5 : 4 ≤ r5.length := findCapture_nil_length h
          have hr2len : 7 ≤ (List.dropWhile (fun c => c = ' ') r1).length := by
            have hp := List.isPrefixOf_iff_prefix.mp hpre
            have := hp.length_le
            simpa using this
          have hdroplen :
              ((List.dropWhile (fun c => c = ' ') r1).drop 7).length
                = (List.dropWhile (fun c => c = ' ') r1).length - 7 := List.length_drop 7 _
          have htlen : ((List.dropWhile (fun c => c = ' ') r1).drop 7).length = 1 + t.length := by
            rw [heq2]; simp [Nat.add_comm]
          have hdw : List.dropWhile (fun c => c = ' ')
              ((List.dropWhile (fun c => c = ' ') r1).drop 7) =
              List.dropWhile (fun c => c = ' ') t := by
            rw [heq2]; simp [List.dropWhile_cons]
          have htr5 : 1 + r5.length ≤ t.length := by
            have hle := (List.dropWhile_sublist (l := t) (fun c => c = ' ')).length_le
            rw [← hdw, heq3] at hle
            simp only [List.length_cons] at hle
            omega
          have hr1 : (List.dropWhile (fun c => c = ' ') r1).length ≤ r1.length :=
            (List.dropWhile_sublist (l := r1) (fun c => c = ' ')).length_le
          simp only [List.length_cons]
          omega
        case _ => exact absurd h (by simp)
      case _ => exact absurd h (by simp)
    case _ => exact absurd h (by simp)
  case _ => exact absurd h (by simp)

theorem findExtends_length (l : List Char) :
    ∀ cap, findExtends l = some cap → 15 ≤ l.length := by
  induction l with
  | nil => intro cap h; exact absurd h (by simp [findExtends])
  | cons c cs ih =>
    intro cap h
    simp only [findExtends] at h
    split at h
    case _ cap' hm =>
      cases h
      exact matchExtendsAt_length hm
    case _ =>
      have := ih cap h
      simp only [List.length_cons]
      omega

theorem length_le_utf8Len (l : List Char) : l.length ≤ utf8Len l := by
  suffices hgen : ∀ (l : List Char) (n : Nat),
      n + l.length ≤ l.foldl (fun m c => m + c.utf8Size) n by
    simpa [utf8Len] using hgen l 0
  intro l
  induction l with
  | nil => intro n; simp
  | cons c rest ih =>
    intro n
    have h1 := ih (n + c.utf8Size)
    have h2 := Char.utf8Size_pos c
    simp only [List.foldl_cons, List.length_cons]
    omega

theorem findExtends_none_of_short {l : List Char} (h : utf8Len l < 10) :
    findExtends l = none := by
  cases hfe : findExtends l with
  | none => rfl
  | some cap =>
    have h1 := findExtends_length l cap hfe
    have h2 := length_le_utf8Len l
    omega

theorem filepathToSlash_nil (sep : Char) : filepathToSlash sep [] = [] := by
  unfold filepathToSlash
  split <;> rfl

/- ===== Claim theorems ===== -/

/-- C9: the minimum-length cutoff in the directive parser is semantically
transparent: for every input, newTemplateFile with the first-line
length-below-10 early return yields exactly the same result as the variant
that always attempts the regex match (no first line shorter than the
cutoff can match the extends grammar, whose shortest match is 15 bytes). -/
theorem c9_cutoff_transparent (c : List Char) :
    newTemplateFile c = newTemplateFileNoCutoff c := by
  simp only [newTemplateFile, newTemplateFileNoCutoff]
  by_cases h : utf8Len (firstLine c) < 10
  · rw [if_pos h, findExtends_none_of_short h]
  · rw [if_neg h]

/-- C4 (amended): newTemplateFile inspects only the first line; on a match
of the extends grammar the returned layout name is the captured path
verbatim (the auto-reload variant applies no forward-slash normalization;
the fs.FS variant differs from it exactly by applying ToSlash to the
capture) and the body is the input with the first line, terminator
included, stripped; on no match the layout is empty and the body is the
whole input unchanged; no input is rejected. -/
theorem c4_first_line_directive (c : List Char) :
    (∀ cap, findExtends (firstLine c) = some cap →
      newTemplateFile c = ⟨c.drop (firstLine c).length, cap⟩) ∧
    (findExtends (firstLine c) = none → newTemplateFile c = ⟨c, []⟩) ∧
    (∀ sep, newTemplateFileFS sep c =
      ⟨(newTemplateFile c).contents, filepathToSlash sep (newTemplateFile c).layout⟩) := by
  have hcut : newTemplateFile c = newTemplateFileNoCutoff c := by
    simp only [newTemplateFile, newTemplateFileNoCutoff]
    by_cases h : utf8Len (firstLine c) < 10
    · rw [if_pos h, findExtends_none_of_short h]
    · rw [if_neg h]
  refine ⟨?_, ?_, ?_⟩
  · intro cap hm
    rw [hcut]
    simp only [newTemplateFileNoCutoff, hm]
  · intro hm
    rw [hcut]
    simp only [newTemplateFileNoCutoff, hm]
  · intro sep
    rw [hcut]
    simp only [newTemplateFileFS, newTemplateFileNoCutoff]
    by_cases h : utf8Len (firstLine c) < 10
    · rw [if_pos h, findExtends_none_of_short h, filepathToSlash_nil]
    · rw [if_neg h]
      cases findExtends (firstLine c) with
      | none => simp [filepathToSlash_nil]
      | some cap => simp

/-- C4 witness: the directive line from the repository's own test yields
layout foo.html and an empty body. -/
theorem c4_first_line_directive_witness :
    newTemplateFile ("\x7b\x7b extends \"foo.html\" \x7d\x7d".toList) =
      ⟨[], "foo.html".toList⟩ :=
  (c4_first_line_directive _).1 _ (by decide)

/-- C4 counterexample: the claim says the returned layout name is the
captured path normalized to forward slashes, but the auto-reload variant
returns the capture verbatim: on a host whose separator is the backslash,
a captured path containing a backslash is returned unnormalized (the fs.FS
variant returns the normalized a/b.tmpl on such a host). -/
theorem c4_counterexample :
    (newTemplateFile ("\x7b\x7b extends \"a\\b.tmpl\" \x7d\x7d\nbody".toList)).layout =
      "a\\b.tmpl".toList ∧
    filepathToSlash '\\' ("a\\b.tmpl".toList) = "a/b.tmpl".toList ∧
    (newTemplateFile ("\x7b\x7b extends \"a\\b.tmpl\" \x7d\x7d\nbody".toList)).layout ≠
      filepathToSlash '\\'
        (newTemplateFile ("\x7b\x7b extends \"a\\b.tmpl\" \x7d\x7d\nbody".toList)).layout ∧
    newTemplateFileFS '\\' ("\x7b\x7b extends \"a\\b.tmpl\" \x7d\x7d\nbody".toList) =
      ⟨"body".toList, "a/b.tmpl".toList⟩ :=
  ⟨rfl, rfl, by decide, rfl⟩

/-- C1: when an extending template compiles, the chain is parsed into the
private clone of the shared namespace in reverse order (compileOne parses
the reversed child-first chain), so the compiled namespace resolves every
block name to the definition of the nearest descendant in the chain that
defines it, falling back to the shared namespace: in particular, in a
three-level chain all defining a block, the child's definition wins. -/
theorem c1_nearest_descendant_overrides {D : Type} (E : TemplateEngine D) (files : Files)
    (fuel : Nat) (name : List Char) (tf : Templatefile) (anc : List (List Char))
    (shared ns : NS D)
    (hwalk : chainWalk files fuel tf.layout = some anc)
    (hcomp : compileOne E files fuel shared name tf = some (ns, none)) (b : String) :
    alookup b ns = optOr (nearestDef E files b (name :: anc)) (alookup b shared) := by
  unfold compileOne at hcomp
  rw [hwalk] at hcomp
  simp only [Option.map_some'] at hcomp
  injection hcomp with hcomp
  have h := parseSeq_alookup E files ((name :: anc).reverse) shared ns hcomp b
  rwa [List.reverse_reverse] at h

/-- C1 witness: in the concrete grandparent/parent/child chain of `files3`,
each file defining block X, the compiled child namespace resolves X to the
child's definition. -/
theorem c1_nearest_descendant_overrides_witness :
    alookup "X" ns3c =
      optOr (nearestDef toyEngine files3 "X"
        ["child.tmpl".toList, "parent.tmpl".toList, "grand.tmpl".toList])
        (alookup "X" ([] : NS String)) ∧
    alookup "X" ns3c = some "C" :=
  ⟨c1_nearest_descendant_overrides toyEngine files3 9 ("child.tmpl".toList)
      ⟨"C".toList, "parent.tmpl".toList⟩
      ["parent.tmpl".toList, "grand.tmpl".toList] [] ns3c rfl rfl "X",
   rfl⟩

/-- C3: the claim says a cyclic extends chain is detected and rejected with
an explicit cyclic-inheritance error; instead the chain-walk loop of
parseTemplates never terminates on the two-file cycle `cycFiles` — for
every fuel bound the build is still looping (no error value is ever
produced), for any engine and any prior state. -/
theorem c3_cyclic_chain_hangs {D : Type} (E : TemplateEngine D) (fuel : Nat)
    (st : Engine D) : parseTemplates E fuel st cycFiles = Outcome.hang := by
  have hroots : ∀ ns : NS D, parseRootsGo E ns cycFiles = (ns, none) := fun ns => rfl
  have hch : ∀ (ns : NS D) (tm : List (List Char × NS D)),
      parseChildrenGo E cycFiles fuel ns tm cycFiles = Outcome.hang := by
    intro ns tm
    show (match compileOne E cycFiles fuel ns ("a.tmpl".toList)
        ⟨"A".toList, "b.tmpl".toList⟩ with
      | none => Outcome.hang
      | some (nsc, some e) =>
          Outcome.fail (mapAssign tm ("a.tmpl".toList) nsc) e
      | some (nsc, none) => parseChildrenGo E cycFiles fuel ns
          (mapAssign tm ("a.tmpl".toList) nsc)
          [("b.tmpl".toList, ⟨"B".toList, "a.tmpl".toList⟩)]) = Outcome.hang
    unfold compileOne
    rw [(cyc_chainWalk_none fuel).2]
    rfl
  simp only [parseTemplates]
  rw [hroots (withBackup st).shared]
  show (match parseChildrenGo E cycFiles fuel (withBackup st).shared
      (withBackup st).templates cycFiles with
    | Outcome.ok tm => Outcome.ok { withBackup st with
        shared := (withBackup st).shared, templates := tm }
    | Outcome.fail tm e => Outcome.fail { withBackup st with
        shared := (withBackup st).shared, templates := tm } e
    | Outcome.hang => Outcome.hang
    | Outcome.panicked => Outcome.panicked) = Outcome.hang
  rw [hch]

/-- C5: a layout name that is not a key of the file set ends the chain walk
silently (the walk returns an empty ancestor list rather than an error),
and an extending template whose walked chain consists of files that all
parse compiles successfully — a missing ancestor is never reported as an
error. -/
theorem c5_missing_parent_tolerated {D : Type} (E : TemplateEngine D) (files : Files)
    (fuel : Nat) (m : List Char) (shared : NS D) (name : List Char) (tf : Templatefile)
    (anc : List (List Char))
    (hm : alookup m files = none)
    (hwalk : chainWalk files fuel tf.layout = some anc)
    (hparse : ∀ n ∈ name :: anc,
      ∃ tf', alookup n files = some tf' ∧ (E.parseBlocks tf'.contents).isSome = true) :
    chainWalk files fuel m = some [] ∧
    compileOne E files fuel shared name tf =
      some ((parseSeq E files shared ((name :: anc).reverse)).1, none) := by
  constructor
  · exact chainWalk_of_missing fuel hm
  · unfold compileOne
    rw [hwalk]
    have h2 := parseSeq_ok_of_parses E files ((name :: anc).reverse) shared
      (fun n hn => hparse n (List.mem_reverse.mp hn))
    simp only [Option.map_some']
    rw [← h2]

theorem withBackup_fields {D : Type} (st : Engine D) :
    (withBackup st).shared = st.shared ∧ (withBackup st).templates = st.templates ∧
    (withBackup st).root = st.root ∧ (withBackup st).extensions = st.extensions ∧
    (withBackup st).fileTreeHash = st.fileTreeHash ∧
    (withBackup st).autoReload = st.autoReload := by
  unfold withBackup
  cases st.sharedBackup <;> exact ⟨rfl, rfl, rfl, rfl, rfl, rfl⟩

theorem parseTemplates_fail_fields {D : Type} (E : TemplateEngine D) (fuel : Nat)
    (st st' : Engine D) (files : Files) (e : String)
    (h : parseTemplates E fuel st files = Outcome.fail st' e) :
    st'.root = st.root ∧ st'.extensions = st.extensions ∧
    st'.fileTreeHash = st.fileTreeHash ∧ st'.autoReload = st.autoReload := by
  obtain ⟨_, _, hr, he, hh, ha⟩ := withBackup_fields st
  simp only [parseTemplates] at h
  split at h
  · cases h
    exact ⟨hr, he, hh, ha⟩
  · split at h
    · cases h
    · cases h
      exact ⟨hr, he, hh, ha⟩
    · cases h
    · cases h

/-- C7: when the recomputed fingerprint equals the stored one — which holds
whenever the scan observes the same ordered (path, modification time)
sequence as the scan that produced the stored fingerprint, the fingerprint
being a deterministic function of that sequence — reloadTemplates returns
nil and leaves the whole engine state (compiled set, shared namespace and
stored fingerprint included) exactly as it was. -/
theorem c7_unchanged_fingerprint_noop {D : Type} (E : TemplateEngine D) (fuel : Nat)
    (fs fsPrev : FS) (st : Engine D)
    (hpairs : scanPairs fs st.root st.extensions = scanPairs fsPrev st.root st.extensions)
    (hhash : st.fileTreeHash = (buildFileList fsPrev st.root st.extensions).2) :
    reloadTemplates E fuel fs st = Outcome.ok st := by
  have h2 : (buildFileList fs st.root st.extensions).2 = st.fileTreeHash := by
    rw [hhash]
    show (scanPairs fs st.root st.extensions).foldl _ [] = _
    rw [hpairs]
    rfl
  simp only [reloadTemplates, h2, if_pos]

/-- C7 witness: rescanning the unmodified one-file set leaves the serving
state untouched. -/
theorem c7_unchanged_fingerprint_noop_witness :
    reloadTemplates toyEngine 9 fsOld stServing = Outcome.ok stServing :=
  c7_unchanged_fingerprint_noop toyEngine 9 fsOld fsOld stServing rfl rfl

/-- C2: the claim says a failed auto-reload rebuild keeps serving the
previously compiled set; evaluating the code at the failing input refutes
it: base.tmpl resolved before the reload, the rebuild fails with a parse
error after the fingerprint changed, and afterwards base.tmpl no longer
resolves — reloadTemplates emptied the compiled map before parsing and
returns the error with the map left empty. -/
theorem c2_failed_reload_discards_set :
    alookup ("base.tmpl".toList) stServing.templates = some [("X", "OLD")] ∧
    reloadTemplates toyEngine 9 fsNew stServing =
      Outcome.fail stFailed "template: parse error" ∧
    alookup ("base.tmpl".toList) stFailed.templates = none :=
  ⟨rfl, rfl, rfl⟩

/-- C10: reloadTemplates stores the new fingerprint before attempting the
rebuild, so when the rebuild fails (after the file contents loaded), the
failure state carries the fresh fingerprint; a subsequent reload over the
unchanged file set finds the stored fingerprint equal to the recomputed
one and returns nil without retrying, and a subsequent ExecuteTemplate
call proceeds against the persisted failure state (its freshly emptied
template map included) without rebuilding. -/
theorem c10_failed_rebuild_persists {D : Type} (E : TemplateEngine D) (fuel : Nat)
    (fs : FS) (st st' : Engine D) (e : String) (files : Files) (bk : NS D)
    (hchanged : ¬((buildFileList fs st.root st.extensions).2 = st.fileTreeHash))
    (hload : loadTemplateFiles fs st.root (buildFileList fs st.root st.extensions).1 =
      Except.ok files)
    (hbk : st.sharedBackup = some bk)
    (hfail : reloadTemplates E fuel fs st = Outcome.fail st' e) :
    st'.fileTreeHash = (buildFileList fs st.root st.extensions).2 ∧
    reloadTemplates E fuel fs st' = Outcome.ok st' ∧
    (∀ name data, ExecuteTemplate E fuel true fs st' name data =
      Outcome.ok (st', lookupAndRun E st' name data)) := by
  simp only [reloadTemplates, if_neg hchanged, hload, hbk] at hfail
  obtain ⟨hroot, hexts, hhash, _⟩ := parseTemplates_fail_fields E fuel _ st' files e hfail
  have hfp : st'.fileTreeHash = (buildFileList fs st.root st.extensions).2 := hhash
  have hnoop : reloadTemplates E fuel fs st' = Outcome.ok st' := by
    have heq : (buildFileList fs st'.root st'.extensions).2 = st'.fileTreeHash := by
      rw [hroot, hexts, hfp]
    simp only [reloadTemplates, heq, if_pos]
  refine ⟨hfp, hnoop, ?_⟩
  intro name data
  unfold ExecuteTemplate
  cases har : st'.autoReload with
  | false => rfl
  | true =>
    show (match reloadTemplates E fuel fs st' with
      | Outcome.hang => Outcome.hang
      | Outcome.panicked => Outcome.panicked
      | Outcome.fail a e => Outcome.ok (a, Except.error e)
      | Outcome.ok a => Outcome.ok (a, lookupAndRun E a name data)) =
      Outcome.ok (st', lookupAndRun E st' name data)
    rw [hnoop]

/-- C10 witness: after the failed rebuild of `stServing` against `fsNew`,
a second reload over the unchanged file set is a no-op (no retry). -/
theorem c10_failed_rebuild_persists_witness :
    reloadTemplates toyEngine 9 fsNew stFailed = Outcome.ok stFailed ∧
    ExecuteTemplate toyEngine 9 true fsNew stFailed ("base.tmpl".toList) [] =
      Outcome.ok (stFailed, lookupAndRun toyEngine stFailed ("base.tmpl".toList) []) := by
  have h := c10_failed_rebuild_persists toyEngine 9 fsNew stServing stFailed
    "template: parse error" [("base.tmpl".toList, ⟨"!".toList, []⟩)] []
    (by decide) rfl rfl rfl
  exact ⟨h.2.1, h.2.2 ("base.tmpl".toList) []⟩

theorem isPrefixOf_append_self (p l : List Char) : p.isPrefixOf (p ++ l) = true := by
  rw [List.isPrefixOf_iff_prefix]
  exact List.prefix_append p l

theorem goTrimPre_append (p l : List Char) : goTrimPre (p ++ l) p = l := by
  unfold goTrimPre
  rw [if_pos (isPrefixOf_append_self p l)]
  exact List.drop_left p l

theorem normRoot_of_slash {root : List Char}
    (h : (['/'] : List Char).isSuffixOf root = true) : normRoot root = root := by
  rw [List.isSuffixOf_iff_suffix] at h
  obtain ⟨r, rfl⟩ := h
  unfold normRoot goTrimSuffix
  rw [if_pos (by rw [List.isSuffixOf_iff_suffix]; exact ⟨r, rfl⟩)]
  have hlen : (r ++ ['/']).length - (['/'] : List Char).length = r.length := by simp
  rw [hlen, List.take_left]

theorem normRoot_of_no_slash {root : List Char}
    (h : (['/'] : List Char).isSuffixOf root = false) : normRoot root = root ++ ['/'] := by
  unfold normRoot goTrimSuffix
  rw [if_neg (by rw [h]; exact Bool.false_ne_true)]

theorem loadKeys (fs : FS) (root : List Char)
    (hread : ∀ e ∈ fs, e.isDir = false → e.contents.isSome = true) :
    ∀ es : List FileInfo, (∀ e ∈ es, e ∈ fs ∧ e.isDir = false) →
    ∃ files, loadTemplateFiles fs root (es.map (fun e => walkPath root e.rel)) =
        Except.ok files ∧
      files.map Prod.fst = es.map (fun e => goTrimPre (walkPath root e.rel) root) := by
  intro es
  induction es with
  | nil => intro _; exact ⟨[], rfl, rfl⟩
  | cons e rest ih =>
    intro hes
    obtain ⟨hefs, hedir⟩ := hes e (List.mem_cons_self e rest)
    have hfs : ∃ f, fs.find?
        (fun x => !x.isDir && (walkPath root x.rel = walkPath root e.rel)) = some f :=
      Option.isSome_iff_exists.mp
        (List.find?_isSome.mpr ⟨e, hefs, by simp [hedir]⟩)
    obtain ⟨f, hf⟩ := hfs
    have hfprop := List.find?_some hf
    have hfdir : f.isDir = false := by
      have := (Bool.and_eq_true_iff.mp hfprop).1
      simpa using this
    have hfmem := List.mem_of_find?_eq_some hf
    obtain ⟨c, hc⟩ := Option.isSome_iff_exists.mp (hread f hfmem hfdir)
    have hgr : goReadFile fs root (walkPath root e.rel) = Except.ok c := by
      unfold goReadFile
      rw [hf]
      show (match f.contents with
        | none => Except.error "read: permission denied"
        | some c => Except.ok c) = Except.ok c
      rw [hc]
    obtain ⟨files, hl, hkeys⟩ := ih (fun x hx => hes x (List.mem_cons_of_mem _ hx))
    refine ⟨(goTrimPre (walkPath root e.rel) root, newTemplateFile c) :: files, ?_, ?_⟩
    · simp only [List.map_cons, loadTemplateFiles, hgr, hl]
    · simp only [List.map_cons, hkeys]

/-- C8 (amended): on a forward-slash-separator host, a compiled-set key is
the entry's walk path (the join through the slash-normalized root, which
filepath.Join cleans) with the raw root argument stripped.  When the root
spelling leaves the joined paths clean (any root free of redundant
separators and dot elements), the key is the root-relative path the claim
describes if the root ends with a separator, and keeps a leading separator
otherwise; a non-clean spelling such as t// makes the raw-root strip miss
entirely, keying the file by its full cleaned path (t/admin/index.tmpl).
No separator normalization of any kind is applied to keys in this
variant. -/
theorem c8_keys_root_relative (fs : FS) (root : List Char) (exts : List (List Char))
    (hread : ∀ e ∈ fs, e.isDir = false → e.contents.isSome = true)
    (hclean : ∀ e ∈ scanEntries fs root exts,
      walkPath root e.rel = normRoot root ++ e.rel) :
    (∃ files, loadTemplateFiles fs root (buildFileList fs root exts).1 = Except.ok files ∧
      ((['/'] : List Char).isSuffixOf root = true →
        files.map Prod.fst = (scanEntries fs root exts).map (fun e => e.rel)) ∧
      ((['/'] : List Char).isSuffixOf root = false →
        files.map Prod.fst = (scanEntries fs root exts).map (fun e => '/' :: e.rel))) ∧
    loadTemplateFiles fs8 ("t//".toList)
        (buildFileList fs8 ("t//".toList) [".tmpl".toList]).1 =
      Except.ok [("t/admin/index.tmpl".toList, ⟨"hi".toList, []⟩)] := by
  have hes : ∀ e ∈ scanEntries fs root exts, e ∈ fs ∧ e.isDir = false := by
    intro e he
    unfold scanEntries at he
    obtain ⟨h1, h2⟩ := List.mem_filter.mp he
    refine ⟨h1, ?_⟩
    have := (Bool.and_eq_true_iff.mp h2).1
    simpa using this
  obtain ⟨files, hl, hkeys⟩ := loadKeys fs root hread (scanEntries fs root exts) hes
  refine ⟨⟨files, hl, ?_, ?_⟩, rfl⟩
  · intro hs
    rw [hkeys]
    apply List.map_congr_left
    intro e he
    rw [hclean e he, normRoot_of_slash hs]
    exact goTrimPre_append root e.rel
  · intro hs
    rw [hkeys]
    apply List.map_congr_left
    intro e he
    rw [hclean e he, normRoot_of_no_slash hs, List.append_assoc]
    exact goTrimPre_append root (['/'] ++ e.rel)

/-- C8 witness: with the clean root d/ (trailing slash), the file at
d/base.tmpl is keyed base.tmpl. -/
theorem c8_keys_root_relative_witness :
    ∃ files, loadTemplateFiles fsOld ("d/".toList)
        (buildFileList fsOld ("d/".toList) [".tmpl".toList]).1 = Except.ok files ∧
      files.map Prod.fst = ["base.tmpl".toList] := by
  obtain ⟨⟨files, hl, hslash, _⟩, _⟩ :=
    c8_keys_root_relative fsOld ("d/".toList) [".tmpl".toList] (by decide) (by decide)
  exact ⟨files, hl, (hslash rfl).trans rfl⟩

/-- C8 counterexample: with the root spelled without a trailing separator
("t"), the file at t/admin/index.tmpl is keyed /admin/index.tmpl — root
stripping leaves a leading separator, refuting the claim that the key is
admin/index.tmpl for every spelling of the root argument. -/
theorem c8_counterexample :
    loadTemplateFiles fs8 ("t".toList)
        (buildFileList fs8 ("t".toList) [".tmpl".toList]).1 =
      Except.ok [("/admin/index.tmpl".toList, ⟨"hi".toList, []⟩)] ∧
    ("/admin/index.tmpl".toList : List Char) ≠ "admin/index.tmpl".toList :=
  ⟨rfl, by decide⟩

theorem flattenPairs_length (kvs : List (String × GoVal)) :
    (flattenPairs kvs).length = 2 * kvs.length := by
  induction kvs with
  | nil => rfl
  | cons kv rest ih =>
    show (GoVal.str kv.1 :: kv.2 :: flattenPairs rest).length = 2 * (kv :: rest).length
    simp only [List.length_cons, ih]
    omega

theorem buildMap_flatten (kvs : List (String × GoVal)) :
    ∀ acc, buildMap acc (flattenPairs kvs) =
      Except.ok (some (GoVal.vmap (kvs.foldl (fun m kv => mapAssign m kv.1 kv.2) acc))) := by
  induction kvs with
  | nil => intro acc; rfl
  | cons kv rest ih =>
    intro acc
    show buildMap (mapAssign acc kv.1 kv.2) (flattenPairs rest) = _
    exact ih (mapAssign acc kv.1 kv.2)

theorem bindData_flatten {kvs : List (String × GoVal)} (h : kvs ≠ []) :
    bindData (flattenPairs kvs) =
      Except.ok (some (GoVal.vmap (assembleMap kvs))) := by
  obtain ⟨kv, rest, rfl⟩ := List.exists_cons_of_ne_nil h
  show (if (flattenPairs (kv :: rest)).length % 2 ≠ 0
      then Except.error "odd number of key/value pairs as template data"
      else buildMap [] (flattenPairs (kv :: rest))) = _
  rw [if_neg (by rw [flattenPairs_length]; omega)]
  exact buildMap_flatten (kv :: rest) []

theorem bindData_odd {data : List GoVal} (h1 : data.length % 2 = 1) (h2 : 1 < data.length) :
    bindData data = Except.error "odd number of key/value pairs as template data" := by
  rcases data with _ | ⟨a, _ | ⟨b, l⟩⟩
  · exact absurd h2 (by decide)
  · exact absurd h2 (by simp)
  · show (if (a :: b :: l).length % 2 ≠ 0 then _ else _) = _
    rw [if_pos (by omega)]

theorem buildMap_badKey : ∀ (data : List GoVal), data.length % 2 = 0 →
    allStringKeys data = false →
    ∀ acc, buildMap acc data = Except.error "template data key must be a string"
  | [], _, hk, _ => nomatch hk
  | [_], h, _, _ => absurd h (by simp)
  | GoVal.str k :: v :: rest, h, hk, acc => by
    have hk' : allStringKeys rest = false := by
      simpa [allStringKeys, GoVal.isStr] using hk
    have h' : rest.length % 2 = 0 := by
      simp only [List.length_cons] at h
      omega
    show buildMap (mapAssign acc k v) rest = _
    exact buildMap_badKey rest h' hk' (mapAssign acc k v)
  | GoVal.int _ :: _ :: _, _, _, _ => rfl
  | GoVal.vmap _ :: _ :: _, _, _, _ => rfl

theorem bindData_badKey {data : List GoVal} (h : data.length % 2 = 0)
    (h2 : 2 ≤ data.length) (hk : allStringKeys data = false) :
    bindData data = Except.error "template data key must be a string" := by
  rcases data with _ | ⟨a, _ | ⟨b, l⟩⟩
  · exact absurd h2 (by decide)
  · exact absurd h2 (by simp)
  · show (if (a :: b :: l).length % 2 ≠ 0 then _ else buildMap [] (a :: b :: l)) = _
    rw [if_neg (by omega)]
    exact buildMap_badKey (a :: b :: l) h hk []

theorem executeNoReload {D : Type} (E : TemplateEngine D) (fuel : Nat)
    (staticEmpty : Bool) (fs : FS) (st : Engine D) (name : List Char) (data : List GoVal)
    (h : st.autoReload = false) :
    ExecuteTemplate E fuel staticEmpty fs st name data =
      Outcome.ok (st, lookupAndRun E st name data) := by
  unfold ExecuteTemplate
  rw [h]
  cases staticEmpty <;> rfl

/-- C6: ExecuteTemplate's variadic data binding, for a known template name
(with no reload in the way): zero data arguments execute with a nil
context; one argument executes with that value as context; an even list of
at least two arguments whose key positions are all strings executes with
the assembled string-keyed map and produces output identical to passing
the corresponding map as the single argument; a non-string key position
fails with the key-type error; and an odd list longer than one fails with
the unbalanced key/value error. -/
theorem c6_variadic_binding {D : Type} (E : TemplateEngine D) (fuel : Nat)
    (staticEmpty : Bool) (fs : FS) (st : Engine D) (name : List Char) (tns : NS D)
    (hnr : st.autoReload = false)
    (hname : alookup name st.templates = some tns) :
    (ExecuteTemplate E fuel staticEmpty fs st name [] =
      Outcome.ok (st, E.exec tns none)) ∧
    (∀ d, ExecuteTemplate E fuel staticEmpty fs st name [d] =
      Outcome.ok (st, E.exec tns (some d))) ∧
    (∀ kvs : List (String × GoVal), kvs ≠ [] →
      ExecuteTemplate E fuel staticEmpty fs st name (flattenPairs kvs) =
        Outcome.ok (st, E.exec tns (some (GoVal.vmap (assembleMap kvs)))) ∧
      ExecuteTemplate E fuel staticEmpty fs st name (flattenPairs kvs) =
        ExecuteTemplate E fuel staticEmpty fs st name [GoVal.vmap (assembleMap kvs)]) ∧
    (∀ data, data.length % 2 = 0 → 2 ≤ data.length → allStringKeys data = false →
      ExecuteTemplate E fuel staticEmpty fs st name data =
        Outcome.ok (st, Except.error "template data key must be a string")) ∧
    (∀ data, data.length % 2 = 1 → 1 < data.length →
      ExecuteTemplate E fuel staticEmpty fs st name data =
        Outcome.ok (st, Except.error "odd number of key/value pairs as template data")) := by
  have hex : ∀ data, ExecuteTemplate E fuel staticEmpty fs st name data =
      Outcome.ok (st, lookupAndRun E st name data) :=
    fun data => executeNoReload E fuel staticEmpty fs st name data hnr
  have hrun : ∀ data, lookupAndRun E st name data =
      (match bindData data with
       | Except.error e => Except.error e
       | Except.ok ctx => E.exec tns ctx) := by
    intro data
    unfold lookupAndRun
    rw [hname]
  refine ⟨?_, ?_, ?_, ?_, ?_⟩
  · rw [hex, hrun]
    rfl
  · intro d
    rw [hex, hrun]
    rfl
  · intro kvs hkvs
    constructor
    · rw [hex, hrun, bindData_flatten hkvs]
    · rw [hex, hex, hrun, hrun, bindData_flatten hkvs]
      rfl
  · intro data h1 h2 h3
    rw [hex, hrun, bindData_badKey h1 h2 h3]
  · intro data h1 h2
    rw [hex, hrun, bindData_odd h1 h2]

/-- C6 witness: the repository test's variadic call with keys Age and Size
produces exactly the output of the corresponding single-map call. -/
theorem c6_variadic_binding_witness :
    ExecuteTemplate toyEngine 9 true [] stExec ("values.tmpl".toList)
      (flattenPairs [("Age", GoVal.int 6), ("Size", GoVal.str "small")]) =
    ExecuteTemplate toyEngine 9 true [] stExec ("values.tmpl".toList)
      [GoVal.vmap (assembleMap [("Age", GoVal.int 6), ("Size", GoVal.str "small")])] :=
  ((c6_variadic_binding toyEngine 9 true [] stExec ("values.tmpl".toList)
      [("X", "V")] rfl rfl).2.2.1
    [("Age", GoVal.int 6), ("Size", GoVal.str "small")] (List.cons_ne_nil _ _)).2

/-- C5 witness: the single template of `files5` extends the absent
ghost.tmpl; the walk ends silently at the missing parent. -/
theorem c5_missing_parent_tolerated_witness :
    chainWalk files5 3 ("ghost.tmpl".toList) = some [] ∧
    compileOne toyEngine files5 3 [] ("c.tmpl".toList)
        ⟨"C".toList, "ghost.tmpl".toList⟩ = some ([("X", "C")], none) := by
  have h := c5_missing_parent_tolerated toyEngine files5 3 ("ghost.tmpl".toList) []
    ("c.tmpl".toList) ⟨"C".toList, "ghost.tmpl".toList⟩ [] rfl rfl
    (by
      intro n hn
      rw [List.mem_singleton] at hn
      subst hn
      exact ⟨⟨"C".toList, "ghost.tmpl".toList⟩, rfl, rfl⟩)
  exact ⟨h.1, h.2⟩

end ExtemplateModel
